import Mathlib

/-!
# Verification of the LMCache chunked cache engine

This development is a shallow embedding of `lmcache/cache_engine.py` (plus the
registry `LMCacheEngineBuilder` and the separator handling of the blend
retriever) into Lean 4, together with theorems settling the specification
claims about that code.

Modelling conventions:
* A torch tensor is modelled by nested lists.  A per-layer key or value tensor
  keeps its two leading axes explicit (`Tensor2`): for the `vllm` layout axis 0
  is the token axis, for the `huggingface` layout axis 1 is the token axis; the
  remaining axes (`head_size`, ...) are folded into the cell type `α`.
* The two recognized layout tags (`"vllm"` / `"huggingface"`) are modelled by
  the closed enumeration `Fmt`.
* `hashlib.sha256` is a library digest; the engine only builds the chain
  `hash(prefix ++ token_bytes)`, so the digest itself is an uninterpreted
  parameter `hashFn : String → List Int → String` of every operation.
* The storage backend is a function `CacheEngineKey → Option (Blob α)`;
  `contains k` is `(bk k).isSome` and `batched_get` maps the backend over the
  key list.  `batched_put` submits a list of `(key, blob)` pairs and reports
  their count; the embedded `store` returns that submitted list so that the
  backend effect is visible in theorems.
* Python runtime failures (`assert`, `IndexError`) are modelled with
  `Except` / `Option` results.
-/

namespace LMC

/-! ## Tensors -/

/-- A per-layer key or value tensor with its two leading axes explicit.
For `vllm` layout the axes are `[token, head]`, for `huggingface` layout
`[head, token]`; deeper axes are folded into `α`. -/
abbrev Tensor2 (α : Type) := List (List α)

/-- The nested ("tuple") KV form: one `(key_tensor, value_tensor)` pair per
model layer (`KVCache` in `lmcache/utils.py`). -/
abbrev KVC (α : Type) := List (Tensor2 α × Tensor2 α)

/-- The stacked blob form: axes `[layer, kv, ...tensor2 axes...]`, the result
of `LMCacheEngine._tuple_kv_to_blob`. -/
abbrev Blob (α : Type) := List (List (Tensor2 α))

/-- The two supported tensor layouts (`metadata.fmt` strings `"vllm"` and
`"huggingface"` in the source; any other string raises `ValueError`, which is
outside this closed enumeration). -/
inductive Fmt
  | vllm
  | hf
deriving DecidableEq, Repr

/-- Size of the token axis of a per-layer tensor: `shape[0]` for vllm and
`shape[1]` for huggingface (torch reads the shape from the first row of a
rectangular tensor). -/
def tokLen : Fmt → Tensor2 α → Nat
  | .vllm, t => t.length
  | .hf, t => (t.headD []).length

/-- Drop `k` leading entries of the token axis (`tensor[k:, ...]` resp.
`tensor[:, k:, ...]`). -/
def dropTok : Fmt → Nat → Tensor2 α → Tensor2 α
  | .vllm, k, t => t.drop k
  | .hf, k, t => t.map (fun r => r.drop k)

/-- Keep at most `k` leading entries of the token axis. -/
def takeTok : Fmt → Nat → Tensor2 α → Tensor2 α
  | .vllm, k, t => t.take k
  | .hf, k, t => t.map (fun r => r.take k)

/-- `torch.cat` along the token axis of a per-layer tensor. -/
def catTok : Fmt → Tensor2 α → Tensor2 α → Tensor2 α
  | .vllm, a, b => a ++ b
  | .hf, a, b => List.zipWith (fun x y => x ++ y) a b

/-! ## The stacked blob and its token-axis operations -/

/-- Token-axis size of a stacked blob (`blob.shape[dim + 2]`, read from the
first layer's first tensor as torch reads shapes). -/
def blobTokLen (f : Fmt) (b : Blob α) : Nat :=
  tokLen f ((b.headD []).headD [])

/-- Apply an operation to every per-layer tensor of a blob. -/
def blobMap (g : Tensor2 α → Tensor2 α) (b : Blob α) : Blob α :=
  b.map (fun l => l.map g)

/-- `torch.cat` of two blobs along the token axis (`dim + 2`). -/
def blobCat (f : Fmt) (a b : Blob α) : Blob α :=
  List.zipWith (fun x y => List.zipWith (catTok f) x y) a b

/-- `torch.cat` of a nonempty list of blobs along the token axis. -/
def blobCatList (f : Fmt) : List (Blob α) → Blob α
  | [] => []
  | b :: bs => bs.foldl (blobCat f) b

/-- Whether `blob.numel() == 0` (no cell of any tensor is populated). -/
def blobNumelZero (b : Blob α) : Bool :=
  b.all (fun l => l.all (fun t => t.all (fun r => r.isEmpty)))

/-- `LMCacheEngine._slice_kv_at(start_idx, kv_tensors, fmt)`: slice the blob's
token axis starting at `start_idx` and split the remainder into chunks of
`chunk_size` (the final chunk may be shorter).  `torch.split` returns at least
one (possibly token-empty) chunk. -/
def sliceKvAt (chunk_size : Nat) (f : Fmt) (start : Nat) (b : Blob α) :
    List (Blob α) :=
  let s := blobTokLen f b - start
  let n := if s = 0 then 1 else (s + chunk_size - 1) / chunk_size
  (List.range n).map
    (fun i => blobMap (fun t => takeTok f chunk_size (dropTok f (start + i * chunk_size) t)) b)

/-! ## The nested/stacked codec -/

/-- `LMCacheEngine._tuple_kv_to_blob`: stack the per-layer key tensors, stack
the per-layer value tensors, stack the two results (giving axes
`[kv, layer, ...]`) and permute `[1, 0, 2, 3, 4]` (giving `[layer, kv, ...]`).
Since the two stacked operands are maps over the same layer list, the
stack-then-permute composite is exactly elementwise pairing. -/
def tuple_kv_to_blob (kv : KVC α) : Blob α :=
  List.zipWith (fun k v => [k, v]) (kv.map Prod.fst) (kv.map Prod.snd)

/-- `LMCacheEngine._blob_to_tuple_kv`: unbind the layer axis and take
`(inner[0], inner[1])` per layer.  The indexing raises in Python when a layer
holds fewer than two tensors; this is the `none` case. -/
def blob_to_tuple_kv (b : Blob α) : Option (KVC α) :=
  b.mapM (fun layer =>
    match layer with
    | k :: v :: _ => some (k, v)
    | _ => none)

/-! ## Token chunking and the prefix-hash chain -/

/-- `LMCacheEngine._chunk_tokens`: `tokens[i : i + chunk_size]` for
`i in range(0, len(tokens), chunk_size)`. -/
def chunkTokens (chunk_size : Nat) (toks : List Int) : List (List Int) :=
  (List.range ((toks.length + chunk_size - 1) / chunk_size)).map
    (fun i => (toks.drop (i * chunk_size)).take chunk_size)

/-- The rolling chain of `LMCacheEngine._prefix_hash`: starting from the root
hash `""` (`_get_init_hash`), each chunk's hash is
`hashFn previous_prefix_hash chunk` (`_hash`), and all hashes are collected. -/
def chainFrom (hashFn : String → List Int → String) :
    String → List (List Int) → List String
  | _, [] => []
  | p, c :: rest =>
    let h := hashFn p c
    h :: chainFrom hashFn h rest

/-- `LMCacheEngine._prefix_hash(token_chunks, num_skip_chunk)`: compute the
whole chain from the root hash, then drop the first `num_skip_chunk` entries. -/
def prefixHash (hashFn : String → List Int → String)
    (chunks : List (List Int)) (num_skip_chunk : Nat) : List String :=
  (chainFrom hashFn "" chunks).drop num_skip_chunk

/-! ## Keys, engine context, storage backend -/

/-- `CacheEngineKey` from `lmcache/utils.py`:
`(fmt, model_name, world_size, worker_id, chunk_hash)`; equality is field-wise. -/
structure CacheEngineKey where
  fmt : Fmt
  model_name : String
  world_size : Nat
  worker_id : Nat
  chunk_hash : String
deriving DecidableEq, Repr

/-- The engine fields used by store/retrieve/lookup: `config.chunk_size` and
the metadata fields consumed by `_make_key` and `metadata.fmt`. -/
structure EngineCtx where
  chunk_size : Nat
  fmt : Fmt
  model_name : String
  world_size : Nat
  worker_id : Nat
deriving DecidableEq, Repr

/-- `LMCacheEngine._make_key(chunk_hash, fmt)`. -/
def mkKey (ctx : EngineCtx) (h : String) : CacheEngineKey :=
  ⟨ctx.fmt, ctx.model_name, ctx.world_size, ctx.worker_id, h⟩

/-- The storage backend as seen through its content-addressed interface:
`contains k` is `(bk k).isSome` and `batched_get` maps `bk` over the keys. -/
abbrev Backend (α : Type) := CacheEngineKey → Option (Blob α)

/-! ## lookup -/

/-- The loop body of `LMCacheEngine.lookup`: walk the chunk hashes in order;
on a `contains` hit advance `current_token_idx` by `chunk_size` capped at
`total_token_cnt`, on the first miss stop. -/
def lookupGo (contains : CacheEngineKey → Bool) (ctx : EngineCtx)
    (total : Nat) : List String → Nat → Nat
  | [], cur => cur
  | h :: rest, cur =>
    if contains (mkKey ctx h) then
      lookupGo contains ctx total rest (min (cur + ctx.chunk_size) total)
    else cur

/-- `LMCacheEngine.lookup(tokens)`: probe-only prefix walk over the chunk-hash
chain.  It is parameterized only by the backend's `contains` oracle — no blob
is ever requested. -/
def lookup (hashFn : String → List Int → String)
    (ctx : EngineCtx) (contains : CacheEngineKey → Bool)
    (tokens : List Int) : Nat :=
  lookupGo contains ctx tokens.length
    (prefixHash hashFn (chunkTokens ctx.chunk_size tokens) 0) 0

/-! ## retrieve -/

/-- The value returned as the first component of `retrieve`: the empty tuple
`()`, the nested-tuple form, or the single stacked tensor. -/
inductive RetKV (α : Type)
  | empty
  | tup (kv : KVC α)
  | blob (b : Blob α)
deriving DecidableEq

/-- The engine's running statistics (`miss_tokens_count`, `hit_tokens_count`,
`hit_rate`).  The Python `hit_rate` is a float computed by one exact division
of two integers; it is modelled as an exact rational. -/
structure Counters where
  miss : Nat
  hit : Nat
  rate : ℚ
deriving DecidableEq

/-- The observable outcome of one `retrieve` call: the returned pair
`(kv, ret_mask)` together with the engine's statistics fields after the call. -/
structure RetOut (α : Type) where
  ret : RetKV α
  ret_mask : List Bool
  miss_tokens_count : Nat
  hit_tokens_count : Nat
  hit_rate : ℚ
deriving DecidableEq

/-- The retrieval loop of `retrieve`: consume the lazy `batched_get` sequence
until (and excluding) the first `None`, collecting the blobs in order. -/
def takeHits : List (Option (Blob α)) → List (Blob α)
  | [] => []
  | none :: _ => []
  | some b :: rest => b :: takeHits rest

/-- `torch.ones_like(tokens, dtype=torch.bool)` for a 1-D token tensor. -/
def onesMask (n : Nat) : List Bool := List.replicate n true

/-- Python slice assignment `m[:k] = False`. -/
def maskFalseBefore (k : Nat) (m : List Bool) : List Bool :=
  List.replicate (min k m.length) false ++ m.drop k

/-- Python slice assignment `m[k:] = False`. -/
def maskFalseFrom (k : Nat) (m : List Bool) : List Bool :=
  m.take k ++ List.replicate (m.length - k) false

/-- Python slice assignment `m[:] = False`. -/
def maskAllFalse (m : List Bool) : List Bool := m.map (fun _ => false)

/-- `torch.sum` of a boolean tensor: the number of `true` entries. -/
def countTrue (m : List Bool) : Nat := m.countP (fun b => b)

/-- The length of a boolean mask's leading `false` run. -/
def leadingFalses (m : List Bool) : Nat :=
  (m.takeWhile (fun b => !b)).length

/-- A suffix mask: some leading `false` run followed by `true`s only. -/
def isSuffixMask (m : List Bool) : Prop :=
  ∃ k, k ≤ m.length ∧
    m = List.replicate k false ++ List.replicate (m.length - k) true

/-- The `num_skip_tok` computed at the top of `retrieve`:
`len(mask) - torch.sum(mask)` when a mask is given, else `0`. -/
def retrieveNumSkipTok (mask : Option (List Bool)) : Nat :=
  match mask with
  | none => 0
  | some m => m.length - countTrue m

/-- The chunk-hash list `retrieve` queries, in order: the prefix-hash chain of
all token chunks minus the first `num_skip_chunk = num_skip_tok // chunk_size`
entries. -/
def retrieveChunkHashes (hashFn : String → List Int → String) (ctx : EngineCtx)
    (tokens : List Int) (mask : Option (List Bool)) : List String :=
  prefixHash hashFn (chunkTokens ctx.chunk_size tokens)
    (retrieveNumSkipTok mask / ctx.chunk_size)

/-- The hit-path tensor assembly of `retrieve`: drop the
`extra_token_len = num_skip_tok - num_skip_chunk * chunk_size` leading tokens
of the first retrieved chunk (the mid-chunk trim; `_slice_kv_at(...)[0]`) and
concatenate all hit chunks along the token axis. -/
def retrieveTrimmedCat (ctx : EngineCtx) (num_skip_tok : Nat) (c0 : Blob α)
    (rest : List (Blob α)) : Blob α :=
  let num_skip_chunk := num_skip_tok / ctx.chunk_size
  let extra := num_skip_tok - num_skip_chunk * ctx.chunk_size
  blobCatList ctx.fmt ((sliceKvAt ctx.chunk_size ctx.fmt extra c0).headD [] :: rest)

/-- The hit-path result formatting of `retrieve`: the returned KV (nested
tuple via `_blob_to_tuple_kv` when `return_tuple`, else the stacked blob) and
`retrieved_token_count` as the code reads it off the result
(`ret[0][0].shape[dim]` resp. `ret.shape[dim + 2]`, with the `numel() == 0` /
empty-tuple special cases).  `none` models the Python failure of
`_blob_to_tuple_kv` on a blob with an under-length layer, impossible for
rectangular tensors. -/
def retrieveRetAndCount (ctx : EngineCtx) (return_tuple : Bool)
    (catted : Blob α) : Option (RetKV α × Nat) :=
  if return_tuple then
    match blob_to_tuple_kv catted with
    | none => none
    | some kv =>
      some (.tup kv,
        match kv with
        | [] => 0
        | l :: _ => tokLen ctx.fmt l.1)
  else
    some (.blob catted,
      if blobNumelZero catted then 0 else blobTokLen ctx.fmt catted)

/-- `LMCacheEngine.retrieve(tokens, mask, return_tuple)` over backend `bk`
with statistics `cnts`.  Returns `none` when the Python code would raise while
converting an ill-formed concatenated blob back to the nested form (impossible
for rectangular torch tensors).  Faithful step order:
mask-skip arithmetic, chunk hashing with skip, in-order `batched_get` consumed
up to the first miss, the zero-hit early return (which updates only
`miss_tokens_count` and flips the whole mask to false), the mid-chunk trim of
the first retrieved chunk, concatenation, the hit-counter and hit-rate update,
and the final mask assignment. -/
def retrieve (hashFn : String → List Int → String) (ctx : EngineCtx)
    (bk : Backend α) (cnts : Counters) (tokens : List Int)
    (mask : Option (List Bool)) (return_tuple : Bool) : Option (RetOut α) :=
  let n := tokens.length
  let num_skip_tok := retrieveNumSkipTok mask
  let num_skip_chunk := num_skip_tok / ctx.chunk_size
  let mask1 := maskFalseBefore num_skip_tok (onesMask n)
  let gets := (retrieveChunkHashes hashFn ctx tokens mask).map (fun h => bk (mkKey ctx h))
  match takeHits gets with
  | [] =>
    some { ret := .empty
           ret_mask := maskAllFalse mask1
           miss_tokens_count := cnts.miss + n
           hit_tokens_count := cnts.hit
           hit_rate := cnts.rate }
  | c0 :: rest =>
    match retrieveRetAndCount ctx return_tuple
        (retrieveTrimmedCat ctx num_skip_tok c0 rest) with
    | none => none
    | some (ret, cnt) =>
      some { ret := ret
             ret_mask := maskFalseFrom (num_skip_tok + cnt) mask1
             miss_tokens_count := cnts.miss
             hit_tokens_count := cnts.hit + cnt
             hit_rate := ((cnts.hit + cnt : Nat) : ℚ) /
               (((cnts.miss : Nat) : ℚ) + ((cnts.hit + cnt : Nat) : ℚ)) }

/-! ## store -/

/-- The runtime failures of `store`: the five `assert` statements in
`store` itself (called `InvalidArgument` by the specification), the
`IndexError` raised by `_num_tokens_in_kv` on an empty nested KV, and the
`assert num_skip_prefix_chunk == 0` inside `_make_chunks`. -/
inductive StoreErr
  | tokensShape
  | maskShape
  | lengthMismatch
  | maskNotAligned
  | kvCountMismatch
  | emptyKV
  | skipAssert
deriving DecidableEq, Repr

/-- The error kinds the specification classifies as `InvalidArgument`
(malformed mask/shape/length mismatches checked at the top of `store`). -/
def isInvalidArgument : StoreErr → Bool
  | .tokensShape => true
  | .maskShape => true
  | .lengthMismatch => true
  | .maskNotAligned => true
  | .kvCountMismatch => true
  | .emptyKV => false
  | .skipAssert => false

/-- A torch tensor as passed to `store`, with an explicit shape so that the
`len(tokens.shape) == 1` precondition is expressible.  `data` is the flat
element list (`data.length = shape.prod` for a real torch tensor). -/
structure PyTensor (α : Type) where
  shape : List Nat
  data : List α
deriving DecidableEq

/-- Python `len(t)` for a tensor: the leading shape entry. -/
def pyLen (t : PyTensor α) : Nat := t.shape.headD 0

/-- `torch.ones_like(tokens, dtype=torch.bool)`. -/
def onesLike (t : PyTensor α) : PyTensor Bool :=
  ⟨t.shape, List.replicate t.shape.prod true⟩

/-- The mask `store` works with: the given one, or
`torch.ones_like(tokens, dtype=torch.bool)` when `None` was passed. -/
def effectiveMask (tokens : PyTensor Int) (mask : Option (PyTensor Bool)) :
    PyTensor Bool :=
  match mask with
  | none => onesLike tokens
  | some m0 => m0

/-- The `num_skip_tok` of `store`: `len(mask) - torch.sum(mask)`, the number
of masked-out tokens. -/
def storeNumSkipTok (m : PyTensor Bool) : Nat := pyLen m - countTrue m.data

/-- `LMCacheEngine._num_tokens_in_kv` on the nested form:
`kv_tensors[0][0].shape[0]` (vllm) or `kv_tensors[0][0].shape[1]`
(huggingface); `none` is the `IndexError` on an empty layer list. -/
def numTokensInKV (f : Fmt) (kv : KVC α) : Option Nat :=
  match kv with
  | [] => none
  | l :: _ => some (tokLen f l.1)

/-- `LMCacheEngine._num_tokens_in_kv` applied to the stacked blob (as done in
`_make_chunks_skip_existing`): `kv_tensors[0][0]` indexes the first layer and
its key tensor. -/
def numTokensInBlob (f : Fmt) (b : Blob α) : Option Nat :=
  match b with
  | [] => none
  | l :: _ =>
    match l with
    | [] => none
    | t :: _ => some (tokLen f t)

/-- Python `range(0, n, step)` (for `step > 0`). -/
def rangeStep (n step : Nat) : List Nat :=
  (List.range ((n + step - 1) / step)).map (fun i => i * step)

/-- The scan of `_make_chunks_skip_existing`: walk
`zip(chunk_hashes, range(0, num_tokens, chunk_size))` in order and return the
token index and chunk index of the first key the backend does not contain
(`none` when every zipped chunk is already present). -/
def findFirstMiss (contains : CacheEngineKey → Bool) (ctx : EngineCtx) :
    List (String × Nat) → Nat → Option (Nat × Nat)
  | [], _ => none
  | (h, idx) :: rest, chunkIdx =>
    if contains (mkKey ctx h) then findFirstMiss contains ctx rest (chunkIdx + 1)
    else some (idx, chunkIdx)

/-- `LMCacheEngine._make_chunks_skip_existing`: hash all token chunks minus the
skipped ones, scan for the first chunk key absent from the backend, and emit
`(hash, kv_chunk)` pairs from that point on; every zipped chunk existing means
nothing to store. -/
def makeChunksSkipExisting (hashFn : String → List Int → String)
    (ctx : EngineCtx) (contains : CacheEngineKey → Bool) (tokens : List Int)
    (blob : Blob α) (num_skip_prefix_chunk : Nat) :
    Except StoreErr (List (String × Blob α)) :=
  let chunk_hashes := prefixHash hashFn (chunkTokens ctx.chunk_size tokens) num_skip_prefix_chunk
  match numTokensInBlob ctx.fmt blob with
  | none => .error .emptyKV
  | some num_tokens =>
    match findFirstMiss contains ctx (chunk_hashes.zip (rangeStep num_tokens ctx.chunk_size)) 0 with
    | none => .ok []
    | some (start_token_idx, start_chunk_idx) =>
      .ok ((chunk_hashes.drop start_chunk_idx).zip
        (sliceKvAt ctx.chunk_size ctx.fmt start_token_idx blob))

/-- `LMCacheEngine._make_chunks`: dispatch on `skip_existing`; the
non-skipping path asserts `num_skip_prefix_chunk == 0` and zips the full hash
chain with the full chunked blob. -/
def makeChunks (hashFn : String → List Int → String) (ctx : EngineCtx)
    (contains : CacheEngineKey → Bool) (tokens : List Int) (blob : Blob α)
    (num_skip_prefix_chunk : Nat) (skip_existing : Bool) :
    Except StoreErr (List (String × Blob α)) :=
  if skip_existing then
    makeChunksSkipExisting hashFn ctx contains tokens blob num_skip_prefix_chunk
  else if num_skip_prefix_chunk ≠ 0 then .error .skipAssert
  else .ok ((prefixHash hashFn (chunkTokens ctx.chunk_size tokens) 0).zip
    (sliceKvAt ctx.chunk_size ctx.fmt 0 blob))

/-- The observable outcome of a successful `store` call: the `(key, blob)`
pairs submitted to `batched_put` (its only backend mutation), the chunk count
the backend reports back (`n_chunks`, one per submitted pair), and the Python
function's return value, which is `None` (`store` is annotated `-> None` and
has no return statement; `n_chunks` is only logged). -/
structure StoreOut (α : Type) where
  puts : List (CacheEngineKey × Blob α)
  n_chunks : Nat
  retval : Option Nat
deriving DecidableEq

/-- `LMCacheEngine.store(tokens, kv_tensors_raw, kv_tensors_mask,
skip_existing, blocking)`.  The checks run in source order: mask defaulting,
the two shape asserts, the length assert, the chunk-alignment assert for the
number of masked-out tokens, the KV-token-count assert, then the nested→blob
conversion, chunking (where `_make_chunks` may itself assert), and one batched
backend write.  `blocking` only decides whether the chunk generator is
materialized before `batched_put`, which is observationally irrelevant here;
waiting is delegated to the backend. -/
def store (hashFn : String → List Int → String) (ctx : EngineCtx)
    (bk : Backend α) (tokens : PyTensor Int) (kv : KVC α)
    (mask : Option (PyTensor Bool)) (skip_existing blocking : Bool) :
    Except StoreErr (StoreOut α) :=
  let m := effectiveMask tokens mask
  if tokens.shape.length ≠ 1 then .error .tokensShape
  else if m.shape.length ≠ 1 then .error .maskShape
  else if pyLen tokens ≠ pyLen m then .error .lengthMismatch
  else
    let num_skip_tok := storeNumSkipTok m
    let num_skip_chunk := num_skip_tok / ctx.chunk_size
    if num_skip_tok ≠ num_skip_chunk * ctx.chunk_size then .error .maskNotAligned
    else
      match numTokensInKV ctx.fmt kv with
      | none => .error .emptyKV
      | some nkv =>
        if pyLen tokens ≠ nkv + num_skip_tok then .error .kvCountMismatch
        else
          let blob := tuple_kv_to_blob kv
          match makeChunks hashFn ctx (fun k => (bk k).isSome) tokens.data blob
              num_skip_chunk skip_existing with
          | .error e => .error e
          | .ok chunks =>
            let puts := chunks.map (fun p => (mkKey ctx p.1, p.2))
            .ok { puts := puts, n_chunks := puts.length, retval := none }

/-! ## The engine registry (`LMCacheEngineBuilder`) -/

/-- An engine instance as the registry sees it: constructed from a config and
a metadata descriptor (`LMCacheEngine(config, metadata)`). -/
structure Config where
  chunk_size : Nat
  local_device : Option String
  remote_url : Option String
deriving DecidableEq, Repr

/-- The metadata descriptor fields, compared field-wise by the registry. -/
structure Metadata where
  model_name : String
  world_size : Nat
  worker_id : Nat
  fmt : Fmt
deriving DecidableEq, Repr

/-- A registered engine instance; `stamp` models Python object identity (each
`LMCacheEngine(...)` construction yields a fresh object). -/
structure EngineInst where
  config : Config
  metadata : Metadata
  stamp : Nat
deriving DecidableEq, Repr

/-- The class-level registry state of `LMCacheEngineBuilder`: the three dicts
keyed by instance id, plus a construction counter providing fresh `stamp`s. -/
structure Registry where
  instances : List (String × EngineInst)
  cfgs : List (String × Config)
  metadatas : List (String × Metadata)
  next_stamp : Nat
deriving DecidableEq, Repr

/-- Dict lookup (`d[k]` / `d.get(k)`). -/
def dictFind (l : List (String × β)) (k : String) : Option β :=
  match l with
  | [] => none
  | (k', v) :: rest => if k' = k then some v else dictFind rest k

/-- Dict assignment (`d[k] = v`): overwrite in place when the key is present,
append otherwise. -/
def dictInsert (l : List (String × β)) (k : String) (v : β) :
    List (String × β) :=
  match l with
  | [] => [(k, v)]
  | (k', v') :: rest =>
    if k' = k then (k, v) :: rest else (k', v') :: dictInsert rest k v

/-- Dict removal (`d.pop(k, None)`). -/
def dictErase (l : List (String × β)) (k : String) : List (String × β) :=
  match l with
  | [] => []
  | (k', v') :: rest =>
    if k' = k then dictErase rest k else (k', v') :: dictErase rest k

/-- The registry error: `ValueError("Instance ... already exists with a
different configuration or metadata.")`, called `ConfigMismatch` by the
specification. -/
inductive RegErr
  | configMismatch
deriving DecidableEq, Repr

/-- `LMCacheEngineBuilder.get_or_create(instance_id, config, metadata)`.
When the id is absent a new engine is constructed, registered in all three
dicts and returned; when present, field-wise divergence of config or metadata
raises and leaves the registry untouched, otherwise the registered engine is
returned. -/
def get_or_create (reg : Registry) (instance_id : String) (config : Config)
    (metadata : Metadata) : (Except RegErr EngineInst) × Registry :=
  match dictFind reg.instances instance_id with
  | none =>
    let engine : EngineInst := ⟨config, metadata, reg.next_stamp⟩
    (.ok engine,
      { instances := dictInsert reg.instances instance_id engine
        cfgs := dictInsert reg.cfgs instance_id config
        metadatas := dictInsert reg.metadatas instance_id metadata
        next_stamp := reg.next_stamp + 1 })
  | some engine =>
    if dictFind reg.cfgs instance_id ≠ some config ∨
        dictFind reg.metadatas instance_id ≠ some metadata then
      (.error .configMismatch, reg)
    else
      (.ok engine, reg)

/-- `LMCacheEngineBuilder.get(instance_id)`. -/
def registry_get (reg : Registry) (instance_id : String) : Option EngineInst :=
  dictFind reg.instances instance_id

/-- `LMCacheEngineBuilder.destroy(instance_id)`: when present, close the
engine (returned here as the second component, so the close effect is
observable) and remove the id from all three dicts; otherwise do nothing. -/
def destroy (reg : Registry) (instance_id : String) :
    Registry × Option EngineInst :=
  match dictFind reg.instances instance_id with
  | none => (reg, none)
  | some engine =>
    ({ instances := dictErase reg.instances instance_id
       cfgs := dictErase reg.cfgs instance_id
       metadatas := dictErase reg.metadatas instance_id
       next_stamp := reg.next_stamp }, some engine)

/-! ## Separator handling of the blend retriever -/

/-- Modelled from the spec: `SPTBlendRetriever.drop_spt_and_get_indices` lives
in `lmcache/blend/retriever.py`, which is not under `src/` (only its test
`test_drop_spt_and_get_indices` is).  Per the spec it "scans the token
sequence for all occurrences of a fixed separator token pattern (`SPT`,
length ≥ 1), removes every occurrence, and records, for each removed
occurrence except one at the very end, the index in the cleaned sequence where
the next segment begins."  This is the canonical left-to-right scan: at each
position compare the next `len(spt)` tokens with `spt`; on a match skip them
and (unless nothing follows) record a boundary at the current cleaned length;
otherwise keep the token.  `spt` is passed as head and tail so each match
consumes at least one token. -/
def dropSptGo (s0 : Int) (srest : List Int) : List Int → List Int × List Nat
  | [] => ([], [])
  | t :: rest =>
    if (t :: rest).take (srest.length + 1) = s0 :: srest then
      let rem := rest.drop srest.length
      let r := dropSptGo s0 srest rem
      if rem.isEmpty then (r.1, r.2) else (r.1, 0 :: r.2)
    else
      let r := dropSptGo s0 srest rest
      (t :: r.1, r.2.map (fun i => i + 1))
termination_by l => l.length
decreasing_by
  · simp only [List.length_cons]
    have := List.length_drop srest.length rest
    omega
  · simp

/-- Modelled from the spec: `dropSeparatorsAndIndex(promptTokens)` returning
the cleaned prompt and the segment-boundary indices.  The spec requires
`length ≥ 1` for the separator pattern; an empty pattern leaves the prompt
unchanged. -/
def drop_spt_and_get_indices (spt : List Int) (prompt : List Int) :
    List Int × List Nat :=
  match spt with
  | [] => (prompt, [])
  | s0 :: srest => dropSptGo s0 srest prompt

/-- Whether an occurrence of `spt` starts at some position of `l`
(bounded, decidable). -/
def hasOcc (spt l : List Int) : Bool :=
  (List.range l.length).any (fun i => (l.drop i).take spt.length = spt)

/-- No occurrence of `spt` begins inside `x` when `x` is immediately followed
by a separator — such an occurrence inspects only `x ++ spt`, so this is
independent of anything after that separator. -/
def cleanBeforeSep (spt x : List Int) : Bool :=
  (List.range x.length).all (fun i => ((x ++ spt).drop i).take spt.length ≠ spt)

/-! ## Concrete fixtures for witnesses and counterexamples -/

/-- A concrete stand-in for the sha256 digest used in witnesses: it
concatenates the previous prefix hash with a rendering of the chunk. -/
def hashFnT : String → List Int → String :=
  fun p c => p ++ toString c

/-- A small engine context: chunk size 2, vllm layout. -/
def ctxT : EngineCtx := ⟨2, .vllm, "test_model", 1, 0⟩

/-- A well-formed one-layer, two-token, one-head KV chunk blob (vllm layout,
cells are `Nat`). -/
def blobT : Blob Nat := [[[[10], [11]], [[20], [21]]]]

/-- A backend holding exactly the chunk blob for the token chunk `[1, 2]`. -/
def bkT : Backend Nat :=
  fun k => if k = mkKey ctxT (hashFnT "" [1, 2]) then some blobT else none

/-- The everywhere-empty backend. -/
def bkEmpty : Backend Nat := fun _ => none

/-- A well-formed one-layer nested KV for two tokens (vllm layout). -/
def kvT2 : KVC Nat := [([[10], [11]], [[20], [21]])]

/-- A well-formed one-layer nested KV for four tokens (vllm layout). -/
def kvT4 : KVC Nat := [([[10], [11], [12], [13]], [[20], [21], [22], [23]])]

/-- Fresh empty registry. -/
def regEmpty : Registry := ⟨[], [], [], 0⟩

/-- Two chained retrieves on concrete data: a hit retrieve (chunk `[1, 2]`
cached, tokens `[1, 2, 3]`) whose output counters feed a zero-hit retrieve of
`[9, 9]`. -/
def cexOut2 : Option (RetOut Nat) :=
  (retrieve hashFnT ctxT bkT ⟨0, 0, 0⟩ [1, 2, 3] none true).bind
    (fun o1 => retrieve hashFnT ctxT bkT
      ⟨o1.miss_tokens_count, o1.hit_tokens_count, o1.hit_rate⟩
      [9, 9] none true)

/-- The outcome of the hit retrieve of `[1, 2, 3]` against `bkT` from fresh
counters: the cached chunk `[1, 2]` is returned as a nested tuple, two tokens
hit. -/
def retOutT : RetOut Nat :=
  { ret := .tup kvT2
    ret_mask := maskFalseFrom (retrieveNumSkipTok none + 2)
      (maskFalseBefore (retrieveNumSkipTok none) (onesMask 3))
    miss_tokens_count := 0
    hit_tokens_count := 0 + 2
    hit_rate := ((0 + 2 : Nat) : ℚ) /
      (((0 : Nat) : ℚ) + ((0 + 2 : Nat) : ℚ)) }

/-- A sample configuration. -/
def cfgA : Config := ⟨256, some "cuda", none⟩

/-- A second, different configuration. -/
def cfgB : Config := ⟨512, some "cuda", none⟩

/-- A sample metadata descriptor. -/
def mdA : Metadata := ⟨"test_model", 1, 0, .vllm⟩

/-- The engine instance created first from `cfgA`/`mdA`. -/
def engA : EngineInst := ⟨cfgA, mdA, 0⟩

/-- A registry holding `engA` under id `"a"`. -/
def regA : Registry := ⟨[("a", engA)], [("a", cfgA)], [("a", mdA)], 1⟩

/-- The outcome of storing four tokens `[1, 2, 3, 4]` with `kvT4` into the
empty backend with chunk size 2: both chunks submitted, count 2, return value
`None`. -/
def storeOutT : StoreOut Nat :=
  ⟨[(mkKey ctxT (hashFnT "" [1, 2]), [[[[10], [11]], [[20], [21]]]]),
    (mkKey ctxT (hashFnT (hashFnT "" [1, 2]) [3, 4]), [[[[12], [13]], [[22], [23]]]])],
   2, none⟩

/-! # Theorems -/

/-! ## C2: the nested/stacked conversion round trip -/

/-- C2: for every nested KV blob `x`,
`_blob_to_tuple_kv(_tuple_kv_to_blob(x)) == x`, element-wise and
layer-by-layer (the conversion succeeds and is the identity). -/
theorem blob_tuple_roundtrip (x : KVC α) :
    blob_to_tuple_kv (tuple_kv_to_blob x) = some x := by
  induction x with
  | nil => rfl
  | cons hd tl ih =>
    obtain ⟨k, v⟩ := hd
    simp only [tuple_kv_to_blob, List.map_cons, List.zipWith_cons_cons,
      blob_to_tuple_kv, List.mapM_cons] at ih ⊢
    simp only [Option.bind_eq_bind, Option.some_bind, Option.bind_eq_some] at ih ⊢
    exact ⟨tl, ih, rfl⟩

/-! ## C9: skip-count independence of the prefix-hash chain -/

/-- C9: `_prefix_hash` with `num_skip_chunk = k` equals `_prefix_hash` with
`num_skip_chunk = 0` with its first `k` entries dropped, and the hash at
position `i` of the skipped list is the hash at position `k + i` of the
unskipped chain: the hash assigned to a chunk is independent of the skip
count, since the chain is always computed from the empty root hash over all
chunks.  Hence a masked store/retrieve generates exactly the same chunk keys
for the unmasked suffix chunks as an unmasked one. -/
theorem prefix_hash_skip_drop (hashFn : String → List Int → String)
    (chunks : List (List Int)) (k : Nat) :
    prefixHash hashFn chunks k = (prefixHash hashFn chunks 0).drop k ∧
    (∀ i : Nat, (prefixHash hashFn chunks k).get? i =
      (prefixHash hashFn chunks 0).get? (k + i)) ∧
    (∀ ctx : EngineCtx, (prefixHash hashFn chunks k).map (mkKey ctx) =
      ((prefixHash hashFn chunks 0).map (mkKey ctx)).drop k) := by
  refine ⟨by simp [prefixHash], fun i => ?_, fun ctx => ?_⟩
  · simp [prefixHash, List.getElem?_drop]
  · simp [prefixHash, List.map_drop]

/-! ## C5: lookup is a probe-only whole-chunk prefix walk -/

theorem lookupGo_characterization (contains : CacheEngineKey → Bool)
    (ctx : EngineCtx) (total : Nat) (hashes : List String) (j : Nat) :
    lookupGo contains ctx total hashes (min j total) =
      min (j + ctx.chunk_size *
        (hashes.takeWhile (fun h => contains (mkKey ctx h))).length) total := by
  induction hashes generalizing j with
  | nil => simp [lookupGo]
  | cons h rest ih =>
    cases hc : contains (mkKey ctx h) with
    | true =>
      have h1 : min (min j total + ctx.chunk_size) total =
          min (j + ctx.chunk_size) total := by omega
      simp only [lookupGo, hc, if_true, List.takeWhile_cons, h1,
        ih (j + ctx.chunk_size), List.length_cons, Nat.mul_succ]
      congr 1
      omega
    | false => simp [lookupGo, hc, List.takeWhile_cons]

/-- C5: `lookup` walks the chunk-hash chain in order using only `contains`
probes (its definition consumes nothing but the `contains` oracle — no blob is
requested) and returns `min(chunk_size * number_of_leading_hit_chunks,
len(tokens))`; consequently the result never exceeds `len(tokens)` and is a
multiple of `chunk_size` unless it equals `len(tokens)`. -/
theorem lookup_prefix_walk (hashFn : String → List Int → String)
    (ctx : EngineCtx) (contains : CacheEngineKey → Bool) (tokens : List Int)
    (hcs : 0 < ctx.chunk_size) :
    lookup hashFn ctx contains tokens =
      min (ctx.chunk_size *
        ((prefixHash hashFn (chunkTokens ctx.chunk_size tokens) 0).takeWhile
          (fun h => contains (mkKey ctx h))).length) tokens.length ∧
    lookup hashFn ctx contains tokens ≤ tokens.length ∧
    (ctx.chunk_size ∣ lookup hashFn ctx contains tokens ∨
      lookup hashFn ctx contains tokens = tokens.length) := by
  have hchar := lookupGo_characterization contains ctx tokens.length
    (prefixHash hashFn (chunkTokens ctx.chunk_size tokens) 0) 0
  rw [Nat.zero_min] at hchar
  have hmain : lookup hashFn ctx contains tokens =
      min (ctx.chunk_size *
        ((prefixHash hashFn (chunkTokens ctx.chunk_size tokens) 0).takeWhile
          (fun h => contains (mkKey ctx h))).length) tokens.length := by
    unfold lookup
    rw [hchar]
    omega
  refine ⟨hmain, by omega, ?_⟩
  rcases Nat.le_total (ctx.chunk_size *
      ((prefixHash hashFn (chunkTokens ctx.chunk_size tokens) 0).takeWhile
        (fun h => contains (mkKey ctx h))).length) tokens.length with hle | hge
  · left
    rw [hmain, min_eq_left hle]
    exact Dvd.intro _ rfl
  · right
    rw [hmain, min_eq_right hge]

/-- Witness for C5 at a concrete engine and backend: chunk size 2, tokens
`[1, 2, 3]`, only the chunk `[1, 2]` cached. -/
theorem lookup_prefix_walk_witness :
    lookup hashFnT ctxT (fun k => (bkT k).isSome) [1, 2, 3] =
      min (ctxT.chunk_size *
        ((prefixHash hashFnT (chunkTokens ctxT.chunk_size [1, 2, 3]) 0).takeWhile
          (fun h => (bkT (mkKey ctxT h)).isSome)).length) 3 ∧
    lookup hashFnT ctxT (fun k => (bkT k).isSome) [1, 2, 3] ≤ 3 ∧
    (ctxT.chunk_size ∣ lookup hashFnT ctxT (fun k => (bkT k).isSome) [1, 2, 3] ∨
      lookup hashFnT ctxT (fun k => (bkT k).isSome) [1, 2, 3] = 3) :=
  lookup_prefix_walk hashFnT ctxT (fun k => (bkT k).isSome) [1, 2, 3] (by decide)

/-! ## C7: registry lifecycle -/

theorem dictFind_insert_self (l : List (String × β)) (k : String) (v : β) :
    dictFind (dictInsert l k v) k = some v := by
  induction l with
  | nil => simp [dictInsert, dictFind]
  | cons p rest ih =>
    obtain ⟨k', v'⟩ := p
    by_cases hk : k' = k
    · simp [dictInsert, dictFind, hk]
    · simp [dictInsert, dictFind, hk, ih]

theorem dictFind_insert_other (l : List (String × β)) (k k' : String) (v : β)
    (h : k' ≠ k) : dictFind (dictInsert l k v) k' = dictFind l k' := by
  have hkk : ¬ (k = k') := fun hh => h hh.symm
  induction l with
  | nil =>
    simp only [dictInsert, dictFind]
    rw [if_neg hkk]
  | cons p rest ih =>
    obtain ⟨k0, v0⟩ := p
    simp only [dictInsert]
    by_cases hk : k0 = k
    · rw [if_pos hk]
      simp only [dictFind]
      rw [if_neg hkk, if_neg (hk ▸ hkk : ¬ (k0 = k'))]
    · rw [if_neg hk]
      simp only [dictFind]
      by_cases hk' : k0 = k'
      · rw [if_pos hk', if_pos hk']
      · rw [if_neg hk', if_neg hk', ih]

theorem dictFind_erase_self (l : List (String × β)) (k : String) :
    dictFind (dictErase l k) k = none := by
  induction l with
  | nil => rfl
  | cons p rest ih =>
    obtain ⟨k0, v0⟩ := p
    simp only [dictErase]
    by_cases hk : k0 = k
    · rw [if_pos hk]
      exact ih
    · rw [if_neg hk]
      simp only [dictFind]
      rw [if_neg hk]
      exact ih

theorem dictFind_erase_other (l : List (String × β)) (k k' : String)
    (h : k' ≠ k) : dictFind (dictErase l k) k' = dictFind l k' := by
  induction l with
  | nil => rfl
  | cons p rest ih =>
    obtain ⟨k0, v0⟩ := p
    simp only [dictErase, dictFind]
    by_cases hk : k0 = k
    · rw [if_pos hk, if_neg (fun hh : k0 = k' => h (hh ▸ hk ▸ rfl))]
      exact ih
    · rw [if_neg hk]
      simp only [dictFind]
      by_cases hk' : k0 = k'
      · rw [if_pos hk', if_pos hk']
      · rw [if_neg hk', if_neg hk', ih]

/-- C7: the registry lifecycle of `LMCacheEngineBuilder`.
`get_or_create` returns the registered engine unchanged when the id exists
with value-equal config and metadata; raises `ConfigMismatch` (the
`ValueError`) on divergence, leaving the registry — including the existing
instance — untouched; and otherwise constructs, registers and returns a fresh
engine without disturbing other ids.  `get` is the dict lookup.  `destroy`
closes (returns) and unregisters the engine from all three dicts when present
and is a no-op when absent. -/
theorem registry_lifecycle (reg : Registry) (id : String) (cfg : Config)
    (md : Metadata) :
    (registry_get reg id = dictFind reg.instances id) ∧
    (∀ e, dictFind reg.instances id = some e →
      dictFind reg.cfgs id = some cfg →
      dictFind reg.metadatas id = some md →
      get_or_create reg id cfg md = (.ok e, reg)) ∧
    (∀ e c0 m0, dictFind reg.instances id = some e →
      dictFind reg.cfgs id = some c0 →
      dictFind reg.metadatas id = some m0 →
      (c0 ≠ cfg ∨ m0 ≠ md) →
      get_or_create reg id cfg md = (.error .configMismatch, reg) ∧
      registry_get reg id = some e) ∧
    (dictFind reg.instances id = none →
      (get_or_create reg id cfg md).1 = .ok ⟨cfg, md, reg.next_stamp⟩ ∧
      registry_get (get_or_create reg id cfg md).2 id =
        some ⟨cfg, md, reg.next_stamp⟩ ∧
      dictFind (get_or_create reg id cfg md).2.cfgs id = some cfg ∧
      dictFind (get_or_create reg id cfg md).2.metadatas id = some md ∧
      (∀ id', id' ≠ id →
        registry_get (get_or_create reg id cfg md).2 id' =
          registry_get reg id')) ∧
    (∀ e, dictFind reg.instances id = some e →
      (destroy reg id).2 = some e ∧
      registry_get (destroy reg id).1 id = none ∧
      dictFind (destroy reg id).1.cfgs id = none ∧
      dictFind (destroy reg id).1.metadatas id = none ∧
      (∀ id', id' ≠ id →
        registry_get (destroy reg id).1 id' = registry_get reg id')) ∧
    (dictFind reg.instances id = none → destroy reg id = (reg, none)) := by
  refine ⟨rfl, ?_, ?_, ?_, ?_, ?_⟩
  · intro e he hc hm
    simp [get_or_create, he, hc, hm]
  · intro e c0 m0 he hc hm hne
    have hcond : dictFind reg.cfgs id ≠ some cfg ∨
        dictFind reg.metadatas id ≠ some md := by
      rcases hne with h | h
      · left
        rw [hc]
        simp [h]
      · right
        rw [hm]
        simp [h]
    constructor
    · simp only [get_or_create, he]
      rw [if_pos hcond]
    · exact he
  · intro he
    refine ⟨by simp [get_or_create, he], ?_, ?_, ?_, ?_⟩
    · simp only [get_or_create, he, registry_get]
      exact dictFind_insert_self _ _ _
    · simp only [get_or_create, he]
      exact dictFind_insert_self _ _ _
    · simp only [get_or_create, he]
      exact dictFind_insert_self _ _ _
    · intro id' hne
      simp only [get_or_create, he, registry_get]
      exact dictFind_insert_other _ _ _ _ hne
  · intro e he
    refine ⟨by simp [destroy, he], ?_, ?_, ?_, ?_⟩
    · simp only [destroy, he, registry_get]
      exact dictFind_erase_self _ _
    · simp only [destroy, he]
      exact dictFind_erase_self _ _
    · simp only [destroy, he]
      exact dictFind_erase_self _ _
    · intro id' hne
      simp only [destroy, he, registry_get]
      exact dictFind_erase_other _ _ _ hne
  · intro he
    simp [destroy, he]

/-! ## C3: store's return value and chunk count -/

/-- C3 (amended): `store` never returns the chunk count — the Python function
returns `None`.  The count of chunks written is the number reported by the
backend's `batched_put` (one per submitted `(key, blob)` pair) and is only
logged; this holds for both `blocking` values. -/
theorem store_returns_none_reports_count (hashFn : String → List Int → String)
    (ctx : EngineCtx) (bk : Backend α) (tokens : PyTensor Int) (kv : KVC α)
    (mask : Option (PyTensor Bool)) (skip_existing blocking : Bool)
    (e : StoreOut α)
    (h : store hashFn ctx bk tokens kv mask skip_existing blocking = .ok e) :
    e.retval = none ∧ e.n_chunks = e.puts.length := by
  simp only [store] at h
  by_cases h1 : tokens.shape.length ≠ 1
  · rw [if_pos h1] at h
    exact Except.noConfusion h
  rw [if_neg h1] at h
  by_cases h2 : (effectiveMask tokens mask).shape.length ≠ 1
  · rw [if_pos h2] at h
    exact Except.noConfusion h
  rw [if_neg h2] at h
  by_cases h3 : pyLen tokens ≠ pyLen (effectiveMask tokens mask)
  · rw [if_pos h3] at h
    exact Except.noConfusion h
  rw [if_neg h3] at h
  by_cases h4 : storeNumSkipTok (effectiveMask tokens mask) ≠
      storeNumSkipTok (effectiveMask tokens mask) / ctx.chunk_size * ctx.chunk_size
  · rw [if_pos h4] at h
    exact Except.noConfusion h
  rw [if_neg h4] at h
  rcases hkv : numTokensInKV ctx.fmt kv with _ | nkv
  · simp only [hkv] at h
    exact Except.noConfusion h
  · simp only [hkv] at h
    by_cases h5 : pyLen tokens ≠ nkv + storeNumSkipTok (effectiveMask tokens mask)
    · rw [if_pos h5] at h
      exact Except.noConfusion h
    rw [if_neg h5] at h
    rcases hmc : makeChunks hashFn ctx (fun k => (bk k).isSome) tokens.data
        (tuple_kv_to_blob kv)
        (storeNumSkipTok (effectiveMask tokens mask) / ctx.chunk_size)
        skip_existing with e' | chunks
    · simp only [hmc] at h
      exact Except.noConfusion h
    · simp only [hmc] at h
      cases h
      exact ⟨rfl, rfl⟩

/-- Witness for C3's amended theorem at a concrete successful store call. -/
theorem store_returns_none_witness :
    store hashFnT ctxT bkEmpty ⟨[4], [1, 2, 3, 4]⟩ kvT4 none false true =
      .ok storeOutT ∧
    storeOutT.retval = none ∧ storeOutT.n_chunks = storeOutT.puts.length :=
  ⟨by rfl,
   store_returns_none_reports_count hashFnT ctxT bkEmpty ⟨[4], [1, 2, 3, 4]⟩
     kvT4 none false true storeOutT (by rfl)⟩

/-- Counterexample for C3 as stated: a concrete store call writes 2 chunks
but its return value is `None`, not the chunk count. -/
theorem store_return_value_cex :
    (store hashFnT ctxT bkEmpty ⟨[4], [1, 2, 3, 4]⟩ kvT4 none false
        true).toOption.map (fun e => (e.retval, e.n_chunks)) =
      some (none, 2) ∧
    (none : Option Nat) ≠ some 2 := by
  constructor
  · decide
  · decide

/-! ## C4: store fails fast on malformed arguments -/

/-- C4 (amended): `store` fails with an `InvalidArgument`-class error — before
submitting anything to the backend — whenever the tokens tensor is not
one-dimensional, the (effective) mask is not one-dimensional, the mask length
differs from the token length, the number of masked-out (`false`) tokens is
not a multiple of `chunk_size` (for a suffix mask this number is exactly the
leading `false` run), or the KV token count differs from `len(tokens)` minus
the masked-out count.  The success result type makes the absence of backend
mutation structural: an error carries no submitted pairs. -/
theorem store_invalid_argument_fails (hashFn : String → List Int → String)
    (ctx : EngineCtx) (bk : Backend α) (tokens : PyTensor Int) (kv : KVC α)
    (mask : Option (PyTensor Bool)) (skip_existing blocking : Bool)
    (hcs : 0 < ctx.chunk_size)
    (hcond :
      tokens.shape.length ≠ 1 ∨
      (effectiveMask tokens mask).shape.length ≠ 1 ∨
      pyLen tokens ≠ pyLen (effectiveMask tokens mask) ∨
      ¬ (ctx.chunk_size ∣ storeNumSkipTok (effectiveMask tokens mask)) ∨
      (∃ nkv, numTokensInKV ctx.fmt kv = some nkv ∧
        pyLen tokens ≠ nkv + storeNumSkipTok (effectiveMask tokens mask))) :
    ∃ err, store hashFn ctx bk tokens kv mask skip_existing blocking =
      .error err ∧ isInvalidArgument err = true := by
  by_cases h1 : tokens.shape.length ≠ 1
  · exact ⟨.tokensShape, by simp only [store]; rw [if_pos h1], rfl⟩
  by_cases h2 : (effectiveMask tokens mask).shape.length ≠ 1
  · exact ⟨.maskShape, by simp only [store]; rw [if_neg h1, if_pos h2], rfl⟩
  by_cases h3 : pyLen tokens ≠ pyLen (effectiveMask tokens mask)
  · exact ⟨.lengthMismatch,
      by simp only [store]; rw [if_neg h1, if_neg h2, if_pos h3], rfl⟩
  by_cases h4 : storeNumSkipTok (effectiveMask tokens mask) ≠
      storeNumSkipTok (effectiveMask tokens mask) / ctx.chunk_size * ctx.chunk_size
  · exact ⟨.maskNotAligned,
      by simp only [store]; rw [if_neg h1, if_neg h2, if_neg h3, if_pos h4], rfl⟩
  rcases hcond with hc | hc | hc | hc | ⟨nkv, hkv, hne⟩
  · exact absurd hc h1
  · exact absurd hc h2
  · exact absurd hc h3
  · refine absurd ?_ hc
    rw [not_not] at h4
    exact Dvd.intro _ (by rw [Nat.mul_comm]; exact h4.symm)
  · refine ⟨.kvCountMismatch, ?_, rfl⟩
    simp only [store]
    rw [if_neg h1, if_neg h2, if_neg h3, if_neg h4]
    simp only [hkv]
    rw [if_pos hne]

/-- Witness for C4's amended theorem: a mask with one masked-out token while
the chunk size is 2 is rejected. -/
theorem store_invalid_argument_witness :
    ∃ err, store hashFnT ctxT bkEmpty ⟨[4], [1, 2, 3, 4]⟩ kvT2
      (some ⟨[4], [false, true, true, true]⟩) true true = .error err ∧
      isInvalidArgument err = true :=
  store_invalid_argument_fails hashFnT ctxT bkEmpty ⟨[4], [1, 2, 3, 4]⟩ kvT2
    (some ⟨[4], [false, true, true, true]⟩) true true (by decide)
    (Or.inr (Or.inr (Or.inr (Or.inl (by decide)))))

/-- Counterexample for C4 as stated: with the non-suffix mask
`[False, True, False, True]` the leading `false` run has length 1, which is
not a multiple of the chunk size 2, yet the concrete store call succeeds —
the code checks the total count of `false` entries (here 2), not the leading
run. -/
theorem store_leading_false_run_cex :
    leadingFalses [false, true, false, true] = 1 ∧
    ¬ (ctxT.chunk_size ∣ leadingFalses [false, true, false, true]) ∧
    (store hashFnT ctxT bkEmpty ⟨[4], [1, 2, 3, 4]⟩ kvT2
      (some ⟨[4], [false, true, false, true]⟩) true true).isOk = true := by
  refine ⟨by decide, by decide, by decide⟩

/-! ## C10: the skip_existing=False path -/

theorem chainFrom_length (hashFn : String → List Int → String) (p : String)
    (l : List (List Int)) : (chainFrom hashFn p l).length = l.length := by
  induction l generalizing p with
  | nil => rfl
  | cons c rest ih =>
    simp only [chainFrom, List.length_cons, ih]

theorem chunkTokens_length (cs : Nat) (toks : List Int) :
    (chunkTokens cs toks).length = (toks.length + cs - 1) / cs := by
  simp [chunkTokens]

theorem sliceKvAt_length (cs : Nat) (f : Fmt) (start : Nat) (b : Blob α) :
    (sliceKvAt cs f start b).length =
      if blobTokLen f b - start = 0 then 1
      else (blobTokLen f b - start + cs - 1) / cs := by
  simp only [sliceKvAt, List.length_map, List.length_range]

theorem blobTokLen_tuple_kv_to_blob (f : Fmt) (l0 : Tensor2 α × Tensor2 α)
    (tl : KVC α) :
    blobTokLen f (tuple_kv_to_blob (l0 :: tl)) = tokLen f l0.1 := rfl

/-- C10: with `skip_existing=False`, (i) any store call whose otherwise-valid
suffix mask excludes at least one whole chunk dies on the
`assert num_skip_prefix_chunk == 0` inside `_make_chunks`, before any backend
write (the error carries no submitted pairs); and (ii) with no masked-out
chunks every chunk of the sequence is submitted — the submitted keys are the
full chunk-key list, independent of the backend state, and the reported count
is the number of token chunks. -/
theorem store_skip_existing_false_spec (α : Type) :
    (∀ (hashFn : String → List Int → String) (ctx : EngineCtx)
      (bk : Backend α) (tokens : PyTensor Int) (kv : KVC α)
      (m : PyTensor Bool) (blocking : Bool) (nkv : Nat),
      tokens.shape.length = 1 →
      m.shape.length = 1 →
      pyLen tokens = pyLen m →
      storeNumSkipTok m = storeNumSkipTok m / ctx.chunk_size * ctx.chunk_size →
      numTokensInKV ctx.fmt kv = some nkv →
      pyLen tokens = nkv + storeNumSkipTok m →
      0 < storeNumSkipTok m / ctx.chunk_size →
      store hashFn ctx bk tokens kv (some m) false blocking =
        .error .skipAssert) ∧
    (∀ (hashFn : String → List Int → String) (ctx : EngineCtx)
      (bk : Backend α) (tokens : PyTensor Int) (kv : KVC α) (blocking : Bool),
      0 < ctx.chunk_size →
      tokens.shape.length = 1 →
      tokens.data.length = pyLen tokens →
      numTokensInKV ctx.fmt kv = some (pyLen tokens) →
      (store hashFn ctx bk tokens kv none false blocking).toOption.map
          (fun e => e.puts.map Prod.fst) =
        some ((prefixHash hashFn (chunkTokens ctx.chunk_size tokens.data) 0).map
          (mkKey ctx)) ∧
      (store hashFn ctx bk tokens kv none false blocking).toOption.map
          (fun e => e.n_chunks) =
        some (chunkTokens ctx.chunk_size tokens.data).length) := by
  constructor
  · intro hashFn ctx bk tokens kv m blocking nkv h1 h2 h3 h4 hkv h5 hskip
    simp only [store, effectiveMask]
    rw [if_neg (by omega : ¬ tokens.shape.length ≠ 1),
      if_neg (by omega : ¬ m.shape.length ≠ 1),
      if_neg (by omega : ¬ pyLen tokens ≠ pyLen m),
      if_neg (fun hh => hh h4)]
    simp only [hkv]
    rw [if_neg (fun hh => hh h5)]
    simp only [makeChunks]
    rw [if_neg (by simp : ¬ (false = true)),
      if_pos (by omega : storeNumSkipTok m / ctx.chunk_size ≠ 0)]
  · intro hashFn ctx bk tokens kv blocking hcs h1 hwf hkv
    obtain ⟨a, ha⟩ := List.length_eq_one.mp h1
    have hprod : tokens.shape.prod = pyLen tokens := by
      rw [ha]
      simp [pyLen, ha]
    have hcount : countTrue (onesLike tokens).data = pyLen tokens := by
      show countTrue (List.replicate tokens.shape.prod true) = pyLen tokens
      rw [hprod]
      induction pyLen tokens with
      | zero => rfl
      | succ k ih =>
        simp only [List.replicate_succ, countTrue, List.countP_cons] at ih ⊢
        simp [ih]
    have hnst : storeNumSkipTok (onesLike tokens) = 0 := by
      rw [storeNumSkipTok, hcount]
      have : pyLen (onesLike tokens) = pyLen tokens := rfl
      omega
    have hplen : (prefixHash hashFn (chunkTokens ctx.chunk_size tokens.data) 0).length =
        (tokens.data.length + ctx.chunk_size - 1) / ctx.chunk_size := by
      simp only [prefixHash, List.drop_zero, chainFrom_length, chunkTokens_length]
    have hble : blobTokLen ctx.fmt (tuple_kv_to_blob kv) = pyLen tokens := by
      rcases kv with _ | ⟨l0, tl⟩
      · simp [numTokensInKV] at hkv
      · simp only [numTokensInKV, Option.some.injEq] at hkv
        rw [blobTokLen_tuple_kv_to_blob]
        exact hkv
    have hle2 : (prefixHash hashFn (chunkTokens ctx.chunk_size tokens.data) 0).length ≤
        (sliceKvAt ctx.chunk_size ctx.fmt 0 (tuple_kv_to_blob kv)).length := by
      rw [sliceKvAt_length, hplen, Nat.sub_zero, hble, ← hwf]
      by_cases hz : tokens.data.length = 0
      · rw [if_pos hz, hz]
        have : (0 + ctx.chunk_size - 1) / ctx.chunk_size = 0 :=
          Nat.div_eq_of_lt (by omega)
        omega
      · rw [if_neg hz]
    have hzip := List.map_fst_zip
      (prefixHash hashFn (chunkTokens ctx.chunk_size tokens.data) 0)
      (sliceKvAt ctx.chunk_size ctx.fmt 0 (tuple_kv_to_blob kv)) hle2
    have hres : store hashFn ctx bk tokens kv none false blocking =
        .ok { puts := ((prefixHash hashFn (chunkTokens ctx.chunk_size tokens.data) 0).zip
                (sliceKvAt ctx.chunk_size ctx.fmt 0 (tuple_kv_to_blob kv))).map
                  (fun p => (mkKey ctx p.1, p.2))
              n_chunks := (((prefixHash hashFn (chunkTokens ctx.chunk_size tokens.data) 0).zip
                (sliceKvAt ctx.chunk_size ctx.fmt 0 (tuple_kv_to_blob kv))).map
                  (fun p => (mkKey ctx p.1, p.2))).length
              retval := none } := by
      simp only [store, effectiveMask]
      rw [if_neg (by omega : ¬ tokens.shape.length ≠ 1),
        if_neg (by simp only [onesLike]; omega :
          ¬ (onesLike tokens).shape.length ≠ 1),
        if_neg (by exact fun hh => hh rfl :
          ¬ pyLen tokens ≠ pyLen (onesLike tokens))]
      rw [hnst]
      rw [if_neg (by simp : ¬ (0 : Nat) ≠ 0 / ctx.chunk_size * ctx.chunk_size)]
      simp only [hkv]
      rw [if_neg (by omega : ¬ pyLen tokens ≠ pyLen tokens + 0)]
      simp only [makeChunks]
      rw [if_neg (by simp : ¬ (false = true)),
        if_neg (by simp : ¬ (0 : Nat) / ctx.chunk_size ≠ 0)]
    have hput : List.map Prod.fst
        (List.map (fun p : String × Blob α => (mkKey ctx p.1, p.2))
          ((prefixHash hashFn (chunkTokens ctx.chunk_size tokens.data) 0).zip
            (sliceKvAt ctx.chunk_size ctx.fmt 0 (tuple_kv_to_blob kv)))) =
        List.map (mkKey ctx)
          (prefixHash hashFn (chunkTokens ctx.chunk_size tokens.data) 0) := by
      rw [List.map_map,
        show Prod.fst ∘ (fun p : String × Blob α => (mkKey ctx p.1, p.2)) =
          (mkKey ctx) ∘ Prod.fst from rfl, ← List.map_map, hzip]
    have hcnt : (List.map (fun p : String × Blob α => (mkKey ctx p.1, p.2))
        ((prefixHash hashFn (chunkTokens ctx.chunk_size tokens.data) 0).zip
          (sliceKvAt ctx.chunk_size ctx.fmt 0 (tuple_kv_to_blob kv)))).length =
        (chunkTokens ctx.chunk_size tokens.data).length := by
      rw [List.length_map, List.length_zip, min_eq_left hle2, hplen,
        chunkTokens_length]
    constructor
    · rw [hres]
      exact congrArg some hput
    · rw [hres]
      exact congrArg some hcnt

/-- Witness for C10 at concrete inputs: the masked non-skipping call dies on
the `_make_chunks` assertion; the unmasked non-skipping call submits both
chunk keys against the empty backend. -/
theorem store_skip_existing_false_witness :
    store hashFnT ctxT bkEmpty ⟨[4], [1, 2, 3, 4]⟩ kvT2
      (some ⟨[4], [false, false, true, true]⟩) false true =
        .error .skipAssert ∧
    (store hashFnT ctxT bkEmpty ⟨[4], [1, 2, 3, 4]⟩ kvT4 none false
        true).toOption.map (fun e => e.puts.map Prod.fst) =
      some ((prefixHash hashFnT (chunkTokens ctxT.chunk_size [1, 2, 3, 4]) 0).map
        (mkKey ctxT)) ∧
    (store hashFnT ctxT bkEmpty ⟨[4], [1, 2, 3, 4]⟩ kvT4 none false
        true).toOption.map (fun e => e.n_chunks) =
      some (chunkTokens ctxT.chunk_size [1, 2, 3, 4]).length :=
  ⟨(store_skip_existing_false_spec Nat).1 hashFnT ctxT bkEmpty
      ⟨[4], [1, 2, 3, 4]⟩ kvT2 ⟨[4], [false, false, true, true]⟩ true 2
      (by decide) (by decide) (by decide) (by decide) (by decide) (by decide)
      (by decide),
   ((store_skip_existing_false_spec Nat).2 hashFnT ctxT bkEmpty
      ⟨[4], [1, 2, 3, 4]⟩ kvT4 true (by decide) (by decide) (by decide)
      (by decide)).1,
   ((store_skip_existing_false_spec Nat).2 hashFnT ctxT bkEmpty
      ⟨[4], [1, 2, 3, 4]⟩ kvT4 true (by decide) (by decide) (by decide)
      (by decide)).2⟩

/-! ## retrieve evaluation lemmas (shared) -/

/-- Zero-hit evaluation of `retrieve`: early return with the all-false mask,
`miss_tokens_count` bumped by `len(tokens)`, and the other statistics
untouched. -/
theorem retrieve_eq_of_takeHits_nil (hashFn : String → List Int → String)
    (ctx : EngineCtx) (bk : Backend α) (cnts : Counters) (tokens : List Int)
    (mask : Option (List Bool)) (return_tuple : Bool)
    (hh : takeHits ((retrieveChunkHashes hashFn ctx tokens mask).map
      (fun h => bk (mkKey ctx h))) = ([] : List (Blob α))) :
    retrieve hashFn ctx bk cnts tokens mask return_tuple =
      some { ret := .empty
             ret_mask := maskAllFalse (maskFalseBefore
               (retrieveNumSkipTok mask) (onesMask tokens.length))
             miss_tokens_count := cnts.miss + tokens.length
             hit_tokens_count := cnts.hit
             hit_rate := cnts.rate } := by
  simp only [retrieve, hh]

/-- Hit-path evaluation of `retrieve` in terms of the consumed hit chunks and
the formatted result. -/
theorem retrieve_eq_of_takeHits_cons (hashFn : String → List Int → String)
    (ctx : EngineCtx) (bk : Backend α) (cnts : Counters) (tokens : List Int)
    (mask : Option (List Bool)) (return_tuple : Bool) (c0 : Blob α)
    (rest : List (Blob α)) (ret : RetKV α) (cnt : Nat)
    (hh : takeHits ((retrieveChunkHashes hashFn ctx tokens mask).map
      (fun h => bk (mkKey ctx h))) = c0 :: rest)
    (hrc : retrieveRetAndCount ctx return_tuple
      (retrieveTrimmedCat ctx (retrieveNumSkipTok mask) c0 rest) =
      some (ret, cnt)) :
    retrieve hashFn ctx bk cnts tokens mask return_tuple =
      some { ret := ret
             ret_mask := maskFalseFrom (retrieveNumSkipTok mask + cnt)
               (maskFalseBefore (retrieveNumSkipTok mask)
                 (onesMask tokens.length))
             miss_tokens_count := cnts.miss
             hit_tokens_count := cnts.hit + cnt
             hit_rate := ((cnts.hit + cnt : Nat) : ℚ) /
               (((cnts.miss : Nat) : ℚ) + ((cnts.hit + cnt : Nat) : ℚ)) } := by
  simp only [retrieve, hh, hrc]

/-! ## Mask and hit-list lemmas (shared) -/

/-- The retrieval loop consumes exactly the maximal all-hit leading run of the
in-order `batched_get` stream: a hit after the first miss is never taken. -/
theorem takeHits_eq_takeWhile (l : List (Option (Blob α))) :
    takeHits l = (l.takeWhile Option.isSome).reduceOption := by
  induction l with
  | nil => rfl
  | cons o rest ih =>
    cases o with
    | none => rfl
    | some b =>
      simp only [takeHits, List.takeWhile_cons, Option.isSome_some, if_true,
        List.reduceOption_cons_of_some, ih]

theorem maskFalseBefore_onesMask (k n : Nat) :
    maskFalseBefore k (onesMask n) =
      List.replicate (min k n) false ++ List.replicate (n - k) true := by
  simp [maskFalseBefore, onesMask, List.drop_replicate]

theorem maskAllFalse_maskFalseBefore (k n : Nat) :
    maskAllFalse (maskFalseBefore k (onesMask n)) = List.replicate n false := by
  rw [maskFalseBefore_onesMask]
  simp only [maskAllFalse, List.map_append, List.map_replicate]
  rw [← List.replicate_add]
  congr 1
  omega

theorem length_maskFalseBefore_onesMask (k n : Nat) :
    (maskFalseBefore k (onesMask n)).length = n := by
  rw [maskFalseBefore_onesMask]
  simp only [List.length_append, List.length_replicate]
  omega

/-- The final `ret_mask` of a hit retrieve, as the two slice assignments leave
it: true exactly on the window `[k, j)` of the `n` token positions. -/
theorem maskFalseFrom_maskFalseBefore (k j n : Nat) (hkj : k ≤ j) :
    maskFalseFrom j (maskFalseBefore k (onesMask n)) =
      (List.range n).map (fun i => decide (k ≤ i) && decide (i < j)) := by
  apply List.ext_getElem
  · simp only [maskFalseFrom, List.length_append, List.length_take,
      List.length_replicate, length_maskFalseBefore_onesMask,
      List.length_map, List.length_range]
    omega
  · intro i h1 h2
    have hn : i < n := by
      simpa using h2
    simp only [List.getElem_map, List.getElem_range]
    simp only [maskFalseFrom, maskFalseBefore_onesMask, List.getElem_append,
      List.getElem_take, List.getElem_replicate, List.length_take,
      List.length_append, List.length_replicate]
    split_ifs with hA hB hC <;>
      simp_all <;> omega

theorem countTrue_replicate_false (n : Nat) :
    countTrue (List.replicate n false) = 0 := by
  induction n with
  | zero => rfl
  | succ k ih =>
    simp only [countTrue] at ih
    simp [countTrue, List.replicate_succ, List.countP_cons, ih]

theorem countTrue_replicate_true (n : Nat) :
    countTrue (List.replicate n true) = n := by
  induction n with
  | zero => rfl
  | succ k ih =>
    simp only [countTrue] at ih
    simp [countTrue, List.replicate_succ, List.countP_cons, ih]

theorem countTrue_append (a b : List Bool) :
    countTrue (a ++ b) = countTrue a + countTrue b :=
  List.countP_append _ a b

theorem leadingFalses_replicate_pair (k r : Nat) :
    leadingFalses (List.replicate k false ++ List.replicate r true) = k := by
  induction k with
  | zero =>
    simp [leadingFalses, List.takeWhile_replicate]
  | succ t ih =>
    simp only [leadingFalses] at ih
    simp only [leadingFalses, List.replicate_succ, List.cons_append,
      List.takeWhile_cons, Bool.not_false, if_true, List.length_cons, ih]

/-- On a suffix mask, `len(mask) - sum(mask)` is exactly the length of the
leading `false` run. -/
theorem numSkipTok_suffix_mask (m : List Bool) (hs : isSuffixMask m) :
    retrieveNumSkipTok (some m) = leadingFalses m := by
  obtain ⟨k, hk, hm⟩ := hs
  generalize hg : m.length - k = r at hm
  have hcnt : countTrue m = r := by
    have h0 := congrArg countTrue hm
    rw [countTrue_append, countTrue_replicate_false,
      countTrue_replicate_true] at h0
    omega
  have hlenm : m.length = k + r := by
    have h0 := congrArg List.length hm
    simp only [List.length_append, List.length_replicate] at h0
    omega
  have hlead : leadingFalses m = k := by
    have h0 := congrArg leadingFalses hm
    rw [leadingFalses_replicate_pair] at h0
    exact h0
  rw [retrieveNumSkipTok, hcnt, hlead]
  omega

/-! ## Separator-dropping lemmas (C8, spec-modelled) -/

theorem take_drop_append_left (X Z : List Int) (i s : Nat)
    (h : i + s ≤ X.length) :
    ((X ++ Z).drop i).take s = (X.drop i).take s := by
  rw [List.drop_append_of_le_length (by omega),
    List.take_append_of_le_length (by rw [List.length_drop]; omega)]

/-- Scanning a run `X` in which no separator occurrence starts leaves `X`
intact and shifts the boundaries found afterwards by `|X|`. -/
theorem dropSptGo_append_of_no_match (s0 : Int) (srest X Y : List Int)
    (h : ∀ i, i < X.length →
      ((X ++ Y).drop i).take (srest.length + 1) ≠ s0 :: srest) :
    dropSptGo s0 srest (X ++ Y) =
      (X ++ (dropSptGo s0 srest Y).1,
        (dropSptGo s0 srest Y).2.map (fun i => i + X.length)) := by
  induction X with
  | nil =>
    simp
  | cons x X' ih =>
    have h0 : ¬ ((x :: (X' ++ Y)).take (srest.length + 1) = s0 :: srest) := by
      have := h 0 (by simp)
      simpa using this
    simp only [List.cons_append, dropSptGo]
    rw [if_neg h0]
    rw [ih (fun i hi => by
      have := h (i + 1) (by simp only [List.length_cons]; omega)
      simpa using this)]
    simp only [List.cons_append, List.map_map, List.length_cons]
    congr 1

/-- Consuming a separator occurrence with a nonempty remainder records a
boundary at the current cleaned position. -/
theorem dropSptGo_sep_cons (s0 : Int) (srest Z : List Int) (hZ : Z ≠ []) :
    dropSptGo s0 srest ((s0 :: srest) ++ Z) =
      ((dropSptGo s0 srest Z).1, 0 :: (dropSptGo s0 srest Z).2) := by
  have hc : (s0 :: (srest ++ Z)).take (srest.length + 1) = s0 :: srest := by
    have h1 : srest.length + 1 = (s0 :: srest).length := by simp
    rw [h1, show s0 :: (srest ++ Z) = (s0 :: srest) ++ Z from rfl,
      List.take_left]
  simp only [List.cons_append, dropSptGo]
  rw [if_pos hc, List.drop_left]
  rw [if_neg (by simp [List.isEmpty_iff, hZ])]

/-- A separator occurrence at the very end records no boundary. -/
theorem dropSptGo_sep_nil (s0 : Int) (srest : List Int) :
    dropSptGo s0 srest (s0 :: srest) = ([], []) := by
  have hc : (s0 :: srest).take (srest.length + 1) = s0 :: srest := by
    have h1 : srest.length + 1 = (s0 :: srest).length := by simp
    rw [h1, List.take_length]
  simp only [dropSptGo]
  rw [if_pos hc, List.drop_length]
  simp [dropSptGo]

theorem cleanBeforeSep_spec (s0 : Int) (srest X : List Int)
    (hc : cleanBeforeSep (s0 :: srest) X = true) :
    ∀ i, i < X.length →
      ((X ++ (s0 :: srest)).drop i).take (srest.length + 1) ≠ s0 :: srest := by
  intro i hi
  simp only [cleanBeforeSep, List.all_eq_true, List.mem_range,
    decide_eq_true_eq, List.length_cons] at hc
  exact hc i hi

/-- No separator occurrence starting inside `X` inspects anything past the
separator that immediately follows `X`, so `cleanBeforeSep` is independent of
whatever comes after that separator. -/
theorem cleanBeforeSep_no_match (s0 : Int) (srest X Y : List Int)
    (hc : cleanBeforeSep (s0 :: srest) X = true) :
    ∀ i, i < X.length →
      ((X ++ ((s0 :: srest) ++ Y)).drop i).take (srest.length + 1) ≠
        s0 :: srest := by
  intro i hi
  rw [← List.append_assoc]
  rw [take_drop_append_left (X ++ (s0 :: srest)) Y i (srest.length + 1)
    (by simp only [List.length_append, List.length_cons]; omega)]
  exact cleanBeforeSep_spec s0 srest X hc i hi

/-- `cleanBeforeSep` in particular rules out occurrences lying wholly inside
`X`. -/
theorem cleanBeforeSep_no_occ_self (s0 : Int) (srest X : List Int)
    (hc : cleanBeforeSep (s0 :: srest) X = true) :
    ∀ i, (X.drop i).take (srest.length + 1) ≠ s0 :: srest := by
  intro i hEq
  by_cases hi : i < X.length
  · have hlen : srest.length + 1 ≤ (X.drop i).length := by
      have h0 := congrArg List.length hEq
      simp only [List.length_take, List.length_cons] at h0
      omega
    apply cleanBeforeSep_spec s0 srest X hc i hi
    rw [List.drop_append_of_le_length (by omega),
      List.take_append_of_le_length hlen]
    exact hEq
  · rw [List.drop_eq_nil_of_le (by omega)] at hEq
    simp at hEq

theorem hasOcc_false_no_match (s0 : Int) (srest C : List Int)
    (h : hasOcc (s0 :: srest) C = false) :
    ∀ i, (C.drop i).take (srest.length + 1) ≠ s0 :: srest := by
  intro i hEq
  by_cases hi : i < C.length
  · have h0 : ∀ j ∈ List.range C.length,
        ¬ ((C.drop j).take (srest.length + 1) = s0 :: srest) := by
      simpa [hasOcc, List.any_eq_false] using h
    exact h0 i (List.mem_range.mpr hi) hEq
  · rw [List.drop_eq_nil_of_le (by omega)] at hEq
    simp at hEq

/-- A wholly occurrence-free run passes through the scanner unchanged. -/
theorem dropSptGo_no_occ (s0 : Int) (srest C : List Int)
    (h : ∀ i, (C.drop i).take (srest.length + 1) ≠ s0 :: srest) :
    dropSptGo s0 srest C = (C, []) := by
  have h0 := dropSptGo_append_of_no_match s0 srest C []
    (fun i hi => by simpa using h i)
  simpa [dropSptGo] using h0

/-- C8 (amended, spec-modelled): for token runs `A`, `B`, `C` such that no
separator occurrence begins inside `A` or inside `B` (not even one spanning
into the separator that follows), `C` contains no occurrence at all, and `B`
and `C` are nonempty, `dropSeparatorsAndIndex` on `[A, SPT, B, SPT, C]` yields
the cleaned prompt `A ++ B ++ C` with boundaries `[|A|, |A| + |B|]`, and a
trailing separator (`[A, SPT, B, SPT]`) yields exactly the same cleaned
prompt and boundaries as `[A, SPT, B]`, namely `(A ++ B, [|A|])` — no extra
empty segment. -/
theorem drop_spt_segments (s0 : Int) (srest A B C : List Int)
    (hA : cleanBeforeSep (s0 :: srest) A = true)
    (hB : cleanBeforeSep (s0 :: srest) B = true)
    (hC : hasOcc (s0 :: srest) C = false)
    (hBne : B ≠ []) (hCne : C ≠ []) :
    drop_spt_and_get_indices (s0 :: srest)
        (A ++ ((s0 :: srest) ++ (B ++ ((s0 :: srest) ++ C)))) =
      (A ++ (B ++ C), [A.length, A.length + B.length]) ∧
    drop_spt_and_get_indices (s0 :: srest)
        (A ++ ((s0 :: srest) ++ (B ++ (s0 :: srest)))) =
      drop_spt_and_get_indices (s0 :: srest) (A ++ ((s0 :: srest) ++ B)) ∧
    drop_spt_and_get_indices (s0 :: srest) (A ++ ((s0 :: srest) ++ B)) =
      (A ++ B, [A.length]) := by
  have goC : dropSptGo s0 srest C = (C, []) :=
    dropSptGo_no_occ s0 srest C (hasOcc_false_no_match s0 srest C hC)
  have goSC : dropSptGo s0 srest ((s0 :: srest) ++ C) = (C, [0]) := by
    rw [dropSptGo_sep_cons s0 srest C hCne, goC]
  have goBSC : dropSptGo s0 srest (B ++ ((s0 :: srest) ++ C)) =
      (B ++ C, [B.length]) := by
    rw [dropSptGo_append_of_no_match s0 srest B ((s0 :: srest) ++ C)
      (cleanBeforeSep_no_match s0 srest B C hB), goSC]
    simp
  have goSBSC : dropSptGo s0 srest
      ((s0 :: srest) ++ (B ++ ((s0 :: srest) ++ C))) =
      (B ++ C, [0, B.length]) := by
    rw [dropSptGo_sep_cons s0 srest _ (by simp), goBSC]
  have goFull1 : dropSptGo s0 srest
      (A ++ ((s0 :: srest) ++ (B ++ ((s0 :: srest) ++ C)))) =
      (A ++ (B ++ C), [A.length, A.length + B.length]) := by
    rw [dropSptGo_append_of_no_match s0 srest A
      ((s0 :: srest) ++ (B ++ ((s0 :: srest) ++ C)))
      (cleanBeforeSep_no_match s0 srest A (B ++ ((s0 :: srest) ++ C)) hA),
      goSBSC]
    simp [Nat.add_comm]
  have goB : dropSptGo s0 srest B = (B, []) :=
    dropSptGo_no_occ s0 srest B (cleanBeforeSep_no_occ_self s0 srest B hB)
  have goBS : dropSptGo s0 srest (B ++ (s0 :: srest)) = (B, []) := by
    rw [dropSptGo_append_of_no_match s0 srest B (s0 :: srest)
      (cleanBeforeSep_spec s0 srest B hB), dropSptGo_sep_nil]
    simp
  have goSBS : dropSptGo s0 srest ((s0 :: srest) ++ (B ++ (s0 :: srest))) =
      (B, [0]) := by
    rw [dropSptGo_sep_cons s0 srest _ (by simp), goBS]
  have goFull2 : dropSptGo s0 srest
      (A ++ ((s0 :: srest) ++ (B ++ (s0 :: srest)))) = (A ++ B, [A.length]) := by
    rw [dropSptGo_append_of_no_match s0 srest A
      ((s0 :: srest) ++ (B ++ (s0 :: srest)))
      (cleanBeforeSep_no_match s0 srest A (B ++ (s0 :: srest)) hA), goSBS]
    simp
  have goSB : dropSptGo s0 srest ((s0 :: srest) ++ B) = (B, [0]) := by
    rw [dropSptGo_sep_cons s0 srest B hBne, goB]
  have goFull3 : dropSptGo s0 srest (A ++ ((s0 :: srest) ++ B)) =
      (A ++ B, [A.length]) := by
    rw [dropSptGo_append_of_no_match s0 srest A ((s0 :: srest) ++ B)
      (cleanBeforeSep_no_match s0 srest A B hA), goSB]
    simp
  exact ⟨goFull1, goFull2.trans goFull3.symm, goFull3⟩

/-- Witness for C8's amended theorem at `SPT = [7]`, `A = [1]`, `B = [2]`,
`C = [3]`. -/
theorem drop_spt_segments_witness :
    drop_spt_and_get_indices [7] ([1] ++ ([7] ++ ([2] ++ ([7] ++ [3])))) =
      ([1] ++ ([2] ++ [3]), [1, 1 + 1]) ∧
    drop_spt_and_get_indices [7] ([1] ++ ([7] ++ ([2] ++ [7]))) =
      drop_spt_and_get_indices [7] ([1] ++ ([7] ++ [2])) ∧
    drop_spt_and_get_indices [7] ([1] ++ ([7] ++ [2])) = ([1] ++ [2], [1]) :=
  drop_spt_segments 7 [] [1] [2] [3] (by decide) (by decide) (by decide)
    (by decide) (by decide)

/-- Counterexample for C8 as stated: with `SPT = [1, 1]`, `A = [0, 1]`,
`B = [5]`, `C = [6]` — none of which contains an occurrence of `SPT` — the
scan finds an occurrence already at index 1 (spanning from `A` into the first
separator), so the boundary list is `[1, 3]`, not the claimed
`[|A|, |A| + |B|] = [2, 3]`. -/
theorem drop_spt_overlap_cex :
    hasOcc [1, 1] [0, 1] = false ∧ hasOcc [1, 1] [5] = false ∧
    hasOcc [1, 1] [6] = false ∧
    drop_spt_and_get_indices [1, 1]
        ([0, 1] ++ ([1, 1] ++ ([5] ++ ([1, 1] ++ [6])))) =
      ([0, 1, 5, 6], [1, 3]) ∧
    ([0, 1, 5, 6], [1, 3]) ≠
      (([0, 1] ++ ([5] ++ [6]) : List Int), ([2, 2 + 1] : List Nat)) := by
  refine ⟨by decide, by decide, by decide, ?_, by decide⟩
  simp +decide [drop_spt_and_get_indices, dropSptGo]

/-! ## C1: retrieve is an in-order prefix cache -/

/-- C1: `retrieve` queries the chunk keys in chunk order and stops at the
first miss.  (i) The consumed chunks are exactly the maximal hit run before
the first miss of the in-order `batched_get` stream — a hit after a miss is
never included.  (ii) With zero hit chunks it returns the empty tuple and an
all-false mask (only the miss counter moves).  (iii) Otherwise the result is
assembled from exactly that contiguous hit run (mid-chunk trim of the first
chunk, then concatenation, formatted per `return_tuple`), and the returned
mask is true exactly on positions
`[num_skip_tok, num_skip_tok + retrieved_token_count)` of the original
tokens — false on the mask-excluded prefix and beyond the retrieved run.
(iv) For a suffix mask, `num_skip_tok` is exactly the length of the
mask-excluded (leading false) prefix. -/
theorem retrieve_prefix_hit_semantics (hashFn : String → List Int → String)
    (ctx : EngineCtx) (bk : Backend α) (cnts : Counters) (tokens : List Int)
    (mask : Option (List Bool)) (return_tuple : Bool)
    (hmask : ∀ m, mask = some m → m.length = tokens.length ∧ isSuffixMask m) :
    takeHits ((retrieveChunkHashes hashFn ctx tokens mask).map
        (fun h => bk (mkKey ctx h))) =
      (((retrieveChunkHashes hashFn ctx tokens mask).map
        (fun h => bk (mkKey ctx h))).takeWhile Option.isSome).reduceOption ∧
    ((((retrieveChunkHashes hashFn ctx tokens mask).map
        (fun h => bk (mkKey ctx h))).takeWhile Option.isSome).reduceOption =
          [] →
      retrieve hashFn ctx bk cnts tokens mask return_tuple =
        some { ret := .empty
               ret_mask := List.replicate tokens.length false
               miss_tokens_count := cnts.miss + tokens.length
               hit_tokens_count := cnts.hit
               hit_rate := cnts.rate }) ∧
    (∀ c0 rest r c out,
      (((retrieveChunkHashes hashFn ctx tokens mask).map
        (fun h => bk (mkKey ctx h))).takeWhile Option.isSome).reduceOption =
          c0 :: rest →
      retrieveRetAndCount ctx return_tuple
        (retrieveTrimmedCat ctx (retrieveNumSkipTok mask) c0 rest) =
          some (r, c) →
      retrieve hashFn ctx bk cnts tokens mask return_tuple = some out →
      out.ret = r ∧
      out.hit_tokens_count = cnts.hit + c ∧
      out.ret_mask = (List.range tokens.length).map
        (fun i => decide (retrieveNumSkipTok mask ≤ i) &&
          decide (i < retrieveNumSkipTok mask + c))) ∧
    (∀ m, mask = some m → retrieveNumSkipTok mask = leadingFalses m) := by
  have htw := takeHits_eq_takeWhile
    ((retrieveChunkHashes hashFn ctx tokens mask).map
      (fun h => bk (mkKey ctx h)))
  refine ⟨htw, ?_, ?_, ?_⟩
  · intro hnil
    have h0 := retrieve_eq_of_takeHits_nil hashFn ctx bk cnts tokens mask
      return_tuple (htw.trans hnil)
    rw [h0, maskAllFalse_maskFalseBefore]
  · intro c0 rest r c out hcons hrc hret
    have heq := retrieve_eq_of_takeHits_cons hashFn ctx bk cnts tokens mask
      return_tuple c0 rest r c (htw.trans hcons) hrc
    rw [heq, Option.some.injEq] at hret
    subst hret
    refine ⟨rfl, rfl, ?_⟩
    exact maskFalseFrom_maskFalseBefore _ _ _ (Nat.le_add_right _ _)
  · intro m hm
    subst hm
    exact numSkipTok_suffix_mask m ((hmask m rfl).2)

/-- Witness for C1: the zero-hit branch on `[9, 9]` and the hit branch on
`[1, 2, 3]` (one cached chunk, trimmed by nothing, two tokens retrieved). -/
theorem retrieve_prefix_hit_semantics_witness :
    retrieve hashFnT ctxT bkT ⟨0, 0, 0⟩ [9, 9] none true =
      some { ret := .empty
             ret_mask := List.replicate 2 false
             miss_tokens_count := 0 + 2
             hit_tokens_count := 0
             hit_rate := 0 } ∧
    (retOutT.ret = .tup kvT2 ∧
      retOutT.hit_tokens_count = 0 + 2 ∧
      retOutT.ret_mask = (List.range 3).map
        (fun i => decide (retrieveNumSkipTok (none : Option (List Bool)) ≤ i) &&
          decide (i < retrieveNumSkipTok (none : Option (List Bool)) + 2))) :=
  ⟨(retrieve_prefix_hit_semantics hashFnT ctxT bkT ⟨0, 0, 0⟩ [9, 9] none true
      (fun m h => Option.noConfusion h)).2.1 (by decide),
   (retrieve_prefix_hit_semantics hashFnT ctxT bkT ⟨0, 0, 0⟩ [1, 2, 3] none
      true (fun m h => Option.noConfusion h)).2.2.1 blobT [] (.tup kvT2) 2
     retOutT (by decide) (by decide)
     (retrieve_eq_of_takeHits_cons hashFnT ctxT bkT ⟨0, 0, 0⟩ [1, 2, 3] none
       true blobT [] (.tup kvT2) 2 (by decide) (by decide))⟩

/-! ## C6: statistics updates of retrieve -/

/-- C6 (amended): only a retrieve with at least one hit chunk recomputes
`hit_rate = hit_tokens_count / (miss_tokens_count + hit_tokens_count)` (after
adding the retrieved token count to `hit_tokens_count`); a zero-hit retrieve
adds `len(tokens)` to `miss_tokens_count` but returns early, leaving both
`hit_tokens_count` and `hit_rate` unchanged at their previous values. -/
theorem retrieve_counter_update (hashFn : String → List Int → String)
    (ctx : EngineCtx) (bk : Backend α) (cnts : Counters) (tokens : List Int)
    (mask : Option (List Bool)) (return_tuple : Bool) :
    (takeHits ((retrieveChunkHashes hashFn ctx tokens mask).map
        (fun h => bk (mkKey ctx h))) = [] →
      retrieve hashFn ctx bk cnts tokens mask return_tuple =
        some { ret := .empty
               ret_mask := maskAllFalse (maskFalseBefore
                 (retrieveNumSkipTok mask) (onesMask tokens.length))
               miss_tokens_count := cnts.miss + tokens.length
               hit_tokens_count := cnts.hit
               hit_rate := cnts.rate }) ∧
    (∀ out, retrieve hashFn ctx bk cnts tokens mask return_tuple = some out →
      takeHits ((retrieveChunkHashes hashFn ctx tokens mask).map
        (fun h => bk (mkKey ctx h))) ≠ [] →
      out.miss_tokens_count = cnts.miss ∧
      cnts.hit ≤ out.hit_tokens_count ∧
      out.hit_rate = (out.hit_tokens_count : ℚ) /
        ((out.miss_tokens_count : ℚ) + (out.hit_tokens_count : ℚ))) := by
  constructor
  · intro hh
    simp only [retrieve, hh]
  · intro out hret hne
    rcases hh : takeHits ((retrieveChunkHashes hashFn ctx tokens mask).map
        (fun h => bk (mkKey ctx h))) with _ | ⟨c0, rest⟩
    · exact absurd hh hne
    simp only [retrieve, hh] at hret
    rcases hrc : retrieveRetAndCount ctx return_tuple
        (retrieveTrimmedCat ctx (retrieveNumSkipTok mask) c0 rest) with _ | ⟨ret, cnt⟩
    · rw [hrc] at hret
      exact Option.noConfusion hret
    · rw [hrc] at hret
      cases hret
      exact ⟨rfl, Nat.le_add_right _ _, rfl⟩

/-- Witness for C6's amended theorem: a hit retrieve (two cached tokens out of
three requested) followed by a zero-hit retrieve on the resulting counters. -/
theorem retrieve_counter_update_witness :
    retrieve hashFnT ctxT bkT ⟨2, 2, 1⟩ [9, 9] none true =
      some { ret := .empty
             ret_mask := maskAllFalse (maskFalseBefore
               (retrieveNumSkipTok none) (onesMask 2))
             miss_tokens_count := 4
             hit_tokens_count := 2
             hit_rate := 1 } ∧
    (∀ out, retrieve hashFnT ctxT bkT ⟨0, 0, 0⟩ [1, 2, 3] none true = some out →
      out.miss_tokens_count = 0 ∧
      (0 : Nat) ≤ out.hit_tokens_count ∧
      out.hit_rate = (out.hit_tokens_count : ℚ) /
        ((out.miss_tokens_count : ℚ) + (out.hit_tokens_count : ℚ))) :=
  ⟨(retrieve_counter_update hashFnT ctxT bkT ⟨2, 2, 1⟩ [9, 9] none true).1
      (by decide),
   fun out hret =>
     (retrieve_counter_update hashFnT ctxT bkT ⟨0, 0, 0⟩ [1, 2, 3] none
       true).2 out hret (by decide)⟩

/-- Counterexample for C6 as stated: after a hit retrieve (hit = 2, miss = 0,
rate = 1) a zero-hit retrieve of two tokens leaves `hit_rate` at its old value
1 instead of `hit / (miss + hit) = 2 / (2 + 2)`. -/
theorem retrieve_zero_hit_rate_cex :
    cexOut2.map (fun o => (o.miss_tokens_count, o.hit_tokens_count)) =
      some (2, 2) ∧
    cexOut2.map (fun o => o.hit_rate) = some 1 ∧
    (1 : ℚ) ≠ (2 : ℚ) / ((2 : ℚ) + (2 : ℚ)) := by
  have hh1 : takeHits ((retrieveChunkHashes hashFnT ctxT [1, 2, 3] none).map
      (fun h => bkT (mkKey ctxT h))) = [blobT] := by decide
  have hrc1 : retrieveRetAndCount ctxT true
      (retrieveTrimmedCat ctxT (retrieveNumSkipTok none) blobT []) =
      some (.tup kvT2, 2) := by decide
  have h1 := retrieve_eq_of_takeHits_cons hashFnT ctxT bkT ⟨0, 0, 0⟩
    [1, 2, 3] none true blobT [] (.tup kvT2) 2 hh1 hrc1
  have hh2 : takeHits ((retrieveChunkHashes hashFnT ctxT [9, 9] none).map
      (fun h => bkT (mkKey ctxT h))) = ([] : List (Blob Nat)) := by decide
  have h2 := retrieve_eq_of_takeHits_nil hashFnT ctxT bkT
    ⟨0, 0 + 2, ((0 + 2 : Nat) : ℚ) /
      (((0 : Nat) : ℚ) + ((0 + 2 : Nat) : ℚ))⟩ [9, 9] none true hh2
  have hchain : cexOut2 =
      some { ret := .empty
             ret_mask := maskAllFalse (maskFalseBefore
               (retrieveNumSkipTok none) (onesMask 2))
             miss_tokens_count := 0 + 2
             hit_tokens_count := 0 + 2
             hit_rate := ((0 + 2 : Nat) : ℚ) /
               (((0 : Nat) : ℚ) + ((0 + 2 : Nat) : ℚ)) } := by
    rw [cexOut2, h1, Option.some_bind]
    exact h2
  refine ⟨?_, ?_, by norm_num⟩
  · rw [hchain]
    rfl
  · rw [hchain, Option.map_some']
    norm_num

/-- Witness for C7 at concrete registries: matching reuse, mismatch rejection
with the instance untouched, destroy of a present id, destroy of an absent
id. -/
theorem registry_lifecycle_witness :
    get_or_create regA "a" cfgA mdA = (.ok engA, regA) ∧
    (get_or_create regA "a" cfgB mdA = (.error .configMismatch, regA) ∧
      registry_get regA "a" = some engA) ∧
    (destroy regA "a").2 = some engA ∧
    registry_get (destroy regA "a").1 "a" = none ∧
    destroy regEmpty "a" = (regEmpty, none) := by
  refine ⟨?_, ?_, ?_, ?_, ?_⟩
  · exact (registry_lifecycle regA "a" cfgA mdA).2.1 engA (by decide)
      (by decide) (by decide)
  · exact (registry_lifecycle regA "a" cfgB mdA).2.2.1 engA cfgA mdA
      (by decide) (by decide) (by decide) (Or.inl (by decide))
  · exact ((registry_lifecycle regA "a" cfgA mdA).2.2.2.2.1 engA (by decide)).1
  · exact ((registry_lifecycle regA "a" cfgA mdA).2.2.2.2.1 engA (by decide)).2.1
  · exact (registry_lifecycle regEmpty "a" cfgA mdA).2.2.2.2.2 (by decide)

end LMC
